import Mathlib

/-!
Verification of the `cloudrender` particle simulation core (`src/cloud.rs`).

This file gives a shallow embedding of the physical-simulation core of the
repository: the `Atom` force model (`find_gravity`, `find_magnetism`), the
symplectic-Euler integrator (`Atom::step`), and the `Cloud` orchestration
(`Cloud::new`, `Cloud::step` with its recentring, pairwise-force and
depth-sort phases, and `Cloud::positions`).

Two numeric models are used:

* The main model works over exact rationals `ℚ`.  All `f32` arithmetic of the
  source is translated literally (same expressions, same order of operations);
  the idealisation is that rationals do not round and have no infinities or
  NaNs, so statements about exact arithmetic relationships are proved here.
  Division by zero in `ℚ` yields `0`; every theorem whose truth depends on a
  division guards the divisor away from zero.
* A second, small IEEE-754-style model (type `FP`) captures the special
  values `+∞`, `-∞` and `NaN` together with their propagation rules, with
  finite arithmetic kept exact.  It is used for the claims about the
  coincident-atom degeneracy and about `f32::total_cmp`-based sorting of
  non-finite depth values.

`Cloud::new` samples positions from a thread-local RNG; the embedding takes
the sampled positions as an explicit argument (the list of random draws), so
the constructor itself is a pure function of the draws.
-/

/-- Three-component vector over `ℚ`, standing in for both `cgmath::Point3<f32>`
and `cgmath::Vector3<f32>` (the source converts freely between the two via
`to_vec`/`+=`). -/
@[ext]
structure Vec3 where
  x : ℚ
  y : ℚ
  z : ℚ
deriving DecidableEq, Repr

namespace Vec3

def add (v w : Vec3) : Vec3 := ⟨v.x + w.x, v.y + w.y, v.z + w.z⟩

def sub (v w : Vec3) : Vec3 := ⟨v.x - w.x, v.y - w.y, v.z - w.z⟩

def neg (v : Vec3) : Vec3 := ⟨-v.x, -v.y, -v.z⟩

/-- Scalar multiplication, `f32 * Vector3` / `Vector3 * f32` in `cgmath`. -/
def smul (c : ℚ) (v : Vec3) : Vec3 := ⟨c * v.x, c * v.y, c * v.z⟩

/-- Component-wise division by a scalar, `Vector3 / f32` in `cgmath`. -/
def divQ (v : Vec3) (c : ℚ) : Vec3 := ⟨v.x / c, v.y / c, v.z / c⟩

instance : Zero Vec3 := ⟨⟨0, 0, 0⟩⟩
instance : Add Vec3 := ⟨add⟩
instance : Sub Vec3 := ⟨sub⟩
instance : Neg Vec3 := ⟨neg⟩
instance : SMul ℚ Vec3 := ⟨smul⟩

@[simp] theorem zero_def : (0 : Vec3) = ⟨0, 0, 0⟩ := rfl
@[simp] theorem add_def (v w : Vec3) : v + w = ⟨v.x + w.x, v.y + w.y, v.z + w.z⟩ := rfl
@[simp] theorem sub_def (v w : Vec3) : v - w = ⟨v.x - w.x, v.y - w.y, v.z - w.z⟩ := rfl
@[simp] theorem neg_def (v : Vec3) : -v = ⟨-v.x, -v.y, -v.z⟩ := rfl
@[simp] theorem smul_def (c : ℚ) (v : Vec3) : c • v = ⟨c * v.x, c * v.y, c * v.z⟩ := rfl
@[simp] theorem divQ_def (v : Vec3) (c : ℚ) : v.divQ c = ⟨v.x / c, v.y / c, v.z / c⟩ := rfl

instance : AddCommMonoid Vec3 where
  add_assoc a b c := by ext <;> simp <;> ring
  zero_add a := by ext <;> simp
  add_zero a := by ext <;> simp
  add_comm a b := by ext <;> simp <;> ring
  nsmul := nsmulRec

/-- The `cgmath` operation `magnitude2`: the squared Euclidean length (dot of the vector
with itself).  The source never takes a square root. -/
def mag2 (v : Vec3) : ℚ := v.x * v.x + v.y * v.y + v.z * v.z

@[simp] theorem mag2_def (v : Vec3) : mag2 v = v.x * v.x + v.y * v.y + v.z * v.z := rfl

theorem mag2_pos_of_ne_zero {v : Vec3} (h : v ≠ 0) : 0 < mag2 v := by
  have hnn : (0 : ℚ) ≤ v.x * v.x + v.y * v.y + v.z * v.z := by
    nlinarith [mul_self_nonneg v.x, mul_self_nonneg v.y, mul_self_nonneg v.z]
  rcases lt_or_eq_of_le hnn with h1 | h1
  · simpa [mag2] using h1
  · exfalso
    apply h
    have hx : v.x = 0 ∧ v.y = 0 ∧ v.z = 0 := by
      constructor
      · nlinarith [mul_self_nonneg v.x, mul_self_nonneg v.y, mul_self_nonneg v.z]
      constructor
      · nlinarith [mul_self_nonneg v.x, mul_self_nonneg v.y, mul_self_nonneg v.z]
      · nlinarith [mul_self_nonneg v.x, mul_self_nonneg v.y, mul_self_nonneg v.z]
    ext <;> simp [hx.1, hx.2.1, hx.2.2]

end Vec3

/-- The exact value of `std::f32::consts::PI` (the `f32` nearest to π),
namely `13176795 / 2^22`. -/
def PI32 : ℚ := 13176795 / 4194304

theorem PI32_pos : 0 < PI32 := by norm_num [PI32]

/-- Point mass `Atom` with position, velocity, mass and charge
(`src/cloud.rs`, lines 12–17). -/
@[ext]
structure Atom where
  position : Vec3
  velocity : Vec3
  mass : ℚ
  charge : ℚ
deriving DecidableEq, Repr

namespace Atom

/-- Gravitational constant `Atom::G` (line 21). -/
def G : ℚ := 5

/-- Permeability constant `Atom::μ` (line 24). -/
def mu : ℚ := 55

/-- Constructor `Atom::new` (lines 26–33): given position, zero velocity, unit mass and
charge. -/
def new (position : Vec3) : Atom :=
  { position := position, velocity := 0, mass := 1, charge := 1 }

/-- Integrator `Atom::step` (lines 35–38):
`self.velocity += delta * force / self.mass; self.position += delta * self.velocity;`.
The position update reads the velocity that was just written. -/
def step (a : Atom) (force : Vec3) (delta : ℚ) : Atom :=
  let velocity := a.velocity + (delta • force).divQ a.mass
  { a with velocity := velocity, position := a.position + delta • velocity }

/-- Pairwise force `Atom::find_gravity` (lines 40–45):
`dir = other.position - self.position;`
`factor = G * self.mass * other.mass / dir.magnitude2();`
returns `dir * factor`. -/
def find_gravity (a other : Atom) : Vec3 :=
  let dir := other.position - a.position
  let factor := G * a.mass * other.mass / dir.mag2
  factor • dir

/-- Pairwise force `Atom::find_magnetism` (lines 47–53):
`dir = self.position - other.position;`
`factor = μ * self.charge * other.charge / 4.0 / PI / dir.magnitude2();`
returns `dir * factor`. -/
def find_magnetism (a other : Atom) : Vec3 :=
  let dir := a.position - other.position
  let factor := mu * a.charge * other.charge / 4 / PI32 / dir.mag2
  factor • dir

end Atom

/-- The owned atom population `Cloud` (lines 56–58). -/
@[ext]
structure Cloud where
  atoms : List Atom
deriving DecidableEq, Repr

namespace Cloud

/-- Constructor `Cloud::new` (lines 61–76): one atom per sampled position, in draw order.
The RNG draws are passed in as `positions`; `random_range(-1.0..=1.0)`
guarantees each component of each draw lies in `[-1, 1]`.  The constructor
performs no sorting. -/
def new (positions : List Vec3) : Cloud :=
  { atoms := positions.map Atom.new }

/-- Constant `RECENTER` (line 79). -/
def RECENTER : ℚ := 1

/-- The accumulation loop of step phase 1 (lines 82–85):
`for atom in &self.atoms { center_of_mass -= atom.position.to_vec() * atom.mass; }`. -/
def centerOfMass (c : Cloud) : Vec3 :=
  c.atoms.foldl (fun acc a => acc - a.mass • a.position) 0

/-- Step phase 1 (lines 80–88): add `center_of_mass * delta * RECENTER` to
the position of every atom. -/
def recenter (c : Cloud) (delta : ℚ) : Cloud :=
  { atoms := c.atoms.map fun a =>
      { a with position := a.position + RECENTER • delta • c.centerOfMass } }

/-- The inner force-accumulation loop of step phase 2 (lines 94–101): the net
force on the given atom at index `a`, summing gravity and magnetism against
every `other` of the snapshot `tmp` at an index `o ≠ a`. -/
def netForce (tmp : List Atom) (a : Nat) (atom : Atom) : Vec3 :=
  tmp.enum.foldl
    (fun force p =>
      if a = p.1 then force
      else force + atom.find_gravity p.2 + atom.find_magnetism p.2)
    0

/-- The outer mutation loop of step phase 2 (lines 93–103):
`for (a, atom) in self.atoms.iter_mut().enumerate()` replaces each traversed
atom in order by its integrated state, reading others from the snapshot
`tmp` and the atom itself from the traversed (not yet integrated) element. -/
def stepAtoms (tmp : List Atom) (delta : ℚ) : Nat → List Atom → List Atom
  | _, [] => []
  | a, atom :: rest =>
      atom.step (netForce tmp a atom) delta :: stepAtoms tmp delta (a + 1) rest

/-- The comparison closure `s` of `Cloud::sort` (line 109):
`a.position.z.total_cmp(&b.position.z)` is not `Greater`.  Over the rational
model (no NaNs, no negative zero), `f32::total_cmp` on the z-components
induces exactly the numeric ordering `z ≤ z`. -/
def zle (a b : Atom) : Bool := a.position.z ≤ b.position.z

/-- Depth sort `Cloud::sort` (lines 108–111): stable sort by the z-component
of position (`sort_by` is a stable merge sort). -/
def sort (c : Cloud) : Cloud :=
  { atoms := c.atoms.mergeSort zle }

/-- The part of `Cloud::step` before its final sort: phase 1 (recentring), then the clone
`atoms_tmp` (line 90), then phase 2 (force accumulation and integration). -/
def stepUnsorted (c : Cloud) (delta : ℚ) : Cloud :=
  let recentred := c.recenter delta
  let tmp := recentred.atoms
  { atoms := stepAtoms tmp delta 0 recentred.atoms }

/-- The frame update `Cloud::step` (lines 78–106): recentring, pairwise forces with
integration, then the depth sort. -/
def step (c : Cloud) (delta : ℚ) : Cloud :=
  (c.stepUnsorted delta).sort

/-- Accessor `Cloud::positions` (lines 113–115). -/
def positions (c : Cloud) : List Vec3 :=
  c.atoms.map fun a => a.position

/-- Iterated stepping with a sequence of frame deltas. -/
def stepMany (c : Cloud) (deltas : List ℚ) : Cloud :=
  deltas.foldl step c

end Cloud

/-- Modelled from the spec wording of step phase 2 (for the refinement
claim): every atom of the post-recentring snapshot `tmp` is integrated with a
net force computed solely from `tmp` — both the atom itself and every
`other` are read from the immutable snapshot. -/
def Cloud.stepAtomsRef (tmp : List Atom) (delta : ℚ) : List Atom :=
  tmp.enum.map fun p => p.2.step (Cloud.netForce tmp p.1 p.2) delta

/-- Modelled from the spec wording of `Cloud::step` (for the refinement
claim): recentring fully completes, then all net forces are computed from
the post-recentring snapshot, then every atom is integrated, then the depth
sort runs. -/
def Cloud.stepRef (c : Cloud) (delta : ℚ) : Cloud :=
  let recentred := c.recenter delta
  Cloud.sort { atoms := Cloud.stepAtomsRef recentred.atoms delta }

/-!
The IEEE-754-style model.  `FP` is an `f32` with unbounded exponent and
mantissa: a finite value is an exact rational, and the special values
`+∞`, `-∞` and `NaN` (with its sign bit, which `f32::total_cmp` inspects)
are explicit constructors.  Finite arithmetic is exact (no rounding, no
overflow) and the finite zero behaves as IEEE `+0.0`; NaNs produced by
arithmetic carry a clear sign bit.  NaN payloads and the negative zero are
not distinguished, which only merges ties of `total_cmp`.
-/

/-- An `f32` value: exact finite rational, an infinity, or a NaN carrying
its sign bit (`sign = true` means the sign bit is set, a negative NaN). -/
inductive FP where
  | finite (q : ℚ)
  | inf
  | negInf
  | nan (sign : Bool)
deriving DecidableEq, Repr

namespace FP

/-- IEEE addition on the model. -/
def add : FP → FP → FP
  | nan _, _ => nan false
  | _, nan _ => nan false
  | inf, negInf => nan false
  | negInf, inf => nan false
  | inf, _ => inf
  | _, inf => inf
  | negInf, _ => negInf
  | _, negInf => negInf
  | finite p, finite q => finite (p + q)

/-- IEEE subtraction on the model. -/
def sub : FP → FP → FP
  | nan _, _ => nan false
  | _, nan _ => nan false
  | inf, inf => nan false
  | negInf, negInf => nan false
  | inf, _ => inf
  | negInf, _ => negInf
  | _, inf => negInf
  | _, negInf => inf
  | finite p, finite q => finite (p - q)

/-- IEEE multiplication on the model: `0 * ±∞ = NaN`. -/
def mul : FP → FP → FP
  | nan _, _ => nan false
  | _, nan _ => nan false
  | inf, inf => inf
  | inf, negInf => negInf
  | negInf, inf => negInf
  | negInf, negInf => inf
  | inf, finite q => if q = 0 then nan false else if 0 < q then inf else negInf
  | finite q, inf => if q = 0 then nan false else if 0 < q then inf else negInf
  | negInf, finite q => if q = 0 then nan false else if 0 < q then negInf else inf
  | finite q, negInf => if q = 0 then nan false else if 0 < q then negInf else inf
  | finite p, finite q => finite (p * q)

/-- IEEE division on the model: a nonzero finite value divided by the
(positive) zero gives a correspondingly signed infinity, `0 / 0 = NaN`,
`±∞ / ±∞ = NaN`. -/
def div : FP → FP → FP
  | nan _, _ => nan false
  | _, nan _ => nan false
  | inf, inf => nan false
  | inf, negInf => nan false
  | negInf, inf => nan false
  | negInf, negInf => nan false
  | inf, finite q => if 0 ≤ q then inf else negInf
  | negInf, finite q => if 0 ≤ q then negInf else inf
  | finite _, inf => finite 0
  | finite _, negInf => finite 0
  | finite p, finite q =>
      if q = 0 then (if p = 0 then nan false else if 0 < p then inf else negInf)
      else finite (p / q)

/-- Whether the value is finite. -/
def isFinite : FP → Bool
  | finite _ => true
  | _ => false

/-- Whether the value is a NaN with clear sign bit. -/
def isPosNaN : FP → Bool
  | nan false => true
  | _ => false

/-- Whether the value is a NaN with set sign bit. -/
def isNegNaN : FP → Bool
  | nan true => true
  | _ => false

/-- The class rank used by `f32::total_cmp`: negative NaN below `-∞`, below
the finite values, below `+∞`, below positive NaN. -/
def rank : FP → Nat
  | nan true => 0
  | negInf => 1
  | finite _ => 2
  | inf => 3
  | nan false => 4

/-- The total order induced by `f32::total_cmp`: compare class ranks, and
compare finite values by their numeric order. -/
def totalLe (a b : FP) : Bool :=
  match a, b with
  | finite p, finite q => p ≤ q
  | a, b => a.rank ≤ b.rank

end FP

/-- Three-component vector of `FP` values. -/
@[ext]
structure VecF where
  x : FP
  y : FP
  z : FP
deriving DecidableEq, Repr

namespace VecF

/-- Component-wise subtraction. -/
def sub (v w : VecF) : VecF := ⟨v.x.sub w.x, v.y.sub w.y, v.z.sub w.z⟩

/-- The `cgmath` operation `magnitude2` in the `FP` model, with the dot
product accumulated left to right: `x*x + y*y + z*z`. -/
def mag2 (v : VecF) : FP := ((v.x.mul v.x).add (v.y.mul v.y)).add (v.z.mul v.z)

/-- The `cgmath` product `Vector3 * f32`: every component times the scalar. -/
def scale (v : VecF) (c : FP) : VecF := ⟨v.x.mul c, v.y.mul c, v.z.mul c⟩

end VecF

/-- Point mass `Atom` in the `FP` model. -/
@[ext]
structure AtomF where
  position : VecF
  velocity : VecF
  mass : FP
  charge : FP
deriving DecidableEq, Repr

namespace AtomF

/-- The constant `Atom::G` as an `FP` value. -/
def GF : FP := FP.finite Atom.G

/-- The constant `Atom::μ` as an `FP` value. -/
def muF : FP := FP.finite Atom.mu

/-- The `f32` literal `4.0` as an `FP` value. -/
def fourF : FP := FP.finite 4

/-- The `f32` constant `PI` as an `FP` value. -/
def piF : FP := FP.finite PI32

/-- The factor `G * self.mass * other.mass / dir.magnitude2()` of
`Atom::find_gravity` in the `FP` model. -/
def gravFactor (a other : AtomF) : FP :=
  ((GF.mul a.mass).mul other.mass).div (other.position.sub a.position).mag2

/-- The force `Atom::find_gravity` in the `FP` model: `dir * factor`. -/
def find_gravity (a other : AtomF) : VecF :=
  (other.position.sub a.position).scale (a.gravFactor other)

/-- The factor `μ * self.charge * other.charge / 4.0 / PI / dir.magnitude2()`
of `Atom::find_magnetism` in the `FP` model. -/
def magFactor (a other : AtomF) : FP :=
  ((((muF.mul a.charge).mul other.charge).div fourF).div piF).div
    (a.position.sub other.position).mag2

/-- The force `Atom::find_magnetism` in the `FP` model: `dir * factor`. -/
def find_magnetism (a other : AtomF) : VecF :=
  (a.position.sub other.position).scale (a.magFactor other)

end AtomF

/-- The depth comparison of `Cloud::sort` in the `FP` model:
`a.position.z.total_cmp(&b.position.z)` is not `Greater`. -/
def zTotalLe (a b : AtomF) : Bool := FP.totalLe a.position.z b.position.z

/-- Depth sort `Cloud::sort` in the `FP` model: stable sort of the atom
sequence by `f32::total_cmp` on the z-components. -/
def sortAtomsF (l : List AtomF) : List AtomF := l.mergeSort zTotalLe

/-!
Helper lemmas shared by the claim theorems.
-/

theorem Vec3.sub_eq_zero_iff {v w : Vec3} : v - w = 0 ↔ v = w := by
  simp [Vec3.ext_iff, sub_eq_zero]

theorem Vec3.smul_smul_eq (c d : ℚ) (v : Vec3) : c • d • v = (c * d) • v := by
  ext <;> simp <;> ring

theorem foldl_sub_eq_sum (f : Atom → Vec3) (l : List Atom) (init : Vec3) :
    l.foldl (fun acc a => acc - f a) init = init + (l.map fun a => -(f a)).sum := by
  induction l generalizing init with
  | nil => simp
  | cons a t ih =>
      rw [List.foldl_cons, ih]
      simp only [List.map_cons, List.sum_cons]
      ext <;> simp [Vec3.add, Vec3.sub, Vec3.neg] <;> ring

/-- Concrete atom at the origin with default mass and charge. -/
def atomA : Atom := Atom.new ⟨0, 0, 0⟩

/-- Concrete atom at `(2, 0, 0)` with default mass and charge. -/
def atomB : Atom := Atom.new ⟨2, 0, 0⟩

/-- C4: `Atom::step` first sets the velocity to
`old_velocity + delta * force / mass` and then sets the position to
`old_position + delta * (the updated velocity)`; equivalently the new
position is `old_position + delta * (old_velocity + delta * force / mass)`,
which exceeds the explicit-Euler position `old_position + delta * old_velocity`
by the second-order term `delta² * force / mass`.  Mass and charge are
untouched. -/
theorem atom_step_symplectic_euler (a : Atom) (f : Vec3) (d : ℚ) :
    (a.step f d).velocity = a.velocity + (d • f).divQ a.mass
    ∧ (a.step f d).position = a.position + d • (a.step f d).velocity
    ∧ (a.step f d).position = a.position + d • (a.velocity + (d • f).divQ a.mass)
    ∧ (a.step f d).position = a.position + d • a.velocity + (d * d) • f.divQ a.mass
    ∧ (a.step f d).mass = a.mass
    ∧ (a.step f d).charge = a.charge := by
  refine ⟨rfl, rfl, rfl, ?_, rfl, rfl⟩
  simp only [Atom.step]
  ext <;> simp <;> ring

/-- C5: the recentring phase of `Cloud::step` adds the single displacement
`c * delta * RECENTER` (`RECENTER = 1`) to the position of every atom, where
`c = Σ (-position_i * mass_i)` is computed once over all pre-step positions;
the phase touches no velocity, mass or charge, and the same `c` is applied
to every atom. -/
theorem recenter_phase_characterization (c : Cloud) (d : ℚ) :
    (c.recenter d).atoms
      = c.atoms.map fun a =>
          { a with position := a.position
              + (Cloud.RECENTER * d) • (c.atoms.map fun b => -(b.mass • b.position)).sum } := by
  have hc : c.centerOfMass = (c.atoms.map fun b => -(b.mass • b.position)).sum := by
    unfold Cloud.centerOfMass
    rw [foldl_sub_eq_sum (fun a => a.mass • a.position) c.atoms 0]
    ext <;> simp
  simp only [Cloud.recenter, hc, Vec3.smul_smul_eq]

/-- C8: `Cloud::step` is deterministic — two clouds with identical atom
populations, driven by the same sequence of deltas, end with identical
position sequences.  The embedded `step` is a pure function of the cloud and
the delta (the source `step` reads no randomness), so equal inputs give
equal outputs. -/
theorem step_deterministic (c₁ c₂ : Cloud) (ds₁ ds₂ : List ℚ)
    (h : c₁.atoms = c₂.atoms) (hds : ds₁ = ds₂) :
    (c₁.stepMany ds₁).positions = (c₂.stepMany ds₂).positions := by
  have hc : c₁ = c₂ := Cloud.ext h
  rw [hc, hds]

/-- Witness for C8: two syntactically different but equal one-atom clouds,
stepped with the same delta list. -/
theorem step_deterministic_witness :
    (Cloud.new [(⟨0, 0, 0⟩ : Vec3)]).atoms = (Cloud.mk [Atom.new ⟨0, 0, 0⟩]).atoms
    ∧ ((Cloud.new [(⟨0, 0, 0⟩ : Vec3)]).stepMany [1]).positions
        = ((Cloud.mk [Atom.new ⟨0, 0, 0⟩]).stepMany [1]).positions :=
  ⟨rfl, step_deterministic (Cloud.new [⟨0, 0, 0⟩]) (Cloud.mk [Atom.new ⟨0, 0, 0⟩]) [1] [1] rfl rfl⟩

/-- Counterexample for C2 as stated: at atoms of unit mass and charge placed
at `(0,0,0)` and `(2,0,0)`, the claimed magnitudes
`G * m_self * m_other / |dir|²` and `μ * c_self * c_other / (4π |dir|²)` are
positive, yet the squared length of each returned force differs from the
square of the claimed magnitude (the source multiplies the claimed factor by
the unnormalized direction, so the actual magnitude carries one extra power
of `|dir|`). -/
theorem find_forces_magnitude_counterexample :
    0 < Atom.G * atomA.mass * atomB.mass / Vec3.mag2 (atomB.position - atomA.position)
    ∧ Vec3.mag2 (atomA.find_gravity atomB)
        ≠ (Atom.G * atomA.mass * atomB.mass / Vec3.mag2 (atomB.position - atomA.position)) ^ 2
    ∧ 0 < Atom.mu * atomA.charge * atomB.charge
          / (4 * PI32 * Vec3.mag2 (atomA.position - atomB.position))
    ∧ Vec3.mag2 (atomA.find_magnetism atomB)
        ≠ (Atom.mu * atomA.charge * atomB.charge
            / (4 * PI32 * Vec3.mag2 (atomA.position - atomB.position))) ^ 2 := by
  refine ⟨by norm_num [atomA, atomB, Atom.new, Atom.G], ?_, ?_, ?_⟩
  · norm_num [atomA, atomB, Atom.new, Atom.G, Atom.find_gravity, Vec3.mag2]
  · norm_num [atomA, atomB, Atom.new, Atom.mu, PI32]
  · norm_num [atomA, atomB, Atom.new, Atom.mu, PI32, Atom.find_magnetism, Vec3.mag2]

/-- C2 amended: for atoms at distinct positions, `find_gravity` returns
`(G * m_self * m_other / |dir|²) * dir` with `dir` the (unnormalized) vector
from self toward other — a positive multiple of `dir` when the mass product
is positive, of magnitude `G * m_self * m_other / |dir|` (stated through
squares, as the model has no square root); `find_magnetism` returns
`(μ * c_self * c_other / (4π |dir'|²)) * dir'` with `dir'` the vector from
other toward self — a positive multiple of `dir'` when the charge product is
positive, of magnitude `μ * c_self * c_other / (4π |dir'|)`. -/
theorem find_forces_characterization (a b : Atom) (h : a.position ≠ b.position) :
    a.find_gravity b
        = (Atom.G * a.mass * b.mass / Vec3.mag2 (b.position - a.position))
            • (b.position - a.position)
    ∧ Vec3.mag2 (a.find_gravity b) * Vec3.mag2 (b.position - a.position)
        = (Atom.G * a.mass * b.mass) ^ 2
    ∧ (0 < a.mass * b.mass →
        ∃ t : ℚ, 0 < t ∧ a.find_gravity b = t • (b.position - a.position))
    ∧ a.find_magnetism b
        = (Atom.mu * a.charge * b.charge / 4 / PI32 / Vec3.mag2 (a.position - b.position))
            • (a.position - b.position)
    ∧ Vec3.mag2 (a.find_magnetism b)
          * (Vec3.mag2 (a.position - b.position) * (4 * PI32) ^ 2)
        = (Atom.mu * a.charge * b.charge) ^ 2
    ∧ (0 < a.charge * b.charge →
        ∃ t : ℚ, 0 < t ∧ a.find_magnetism b = t • (a.position - b.position)) := by
  have hdg : b.position - a.position ≠ 0 := fun h0 => h (Vec3.sub_eq_zero_iff.mp h0).symm
  have hdm : a.position - b.position ≠ 0 := fun h0 => h (Vec3.sub_eq_zero_iff.mp h0)
  have hmg : Vec3.mag2 (b.position - a.position) ≠ 0 :=
    ne_of_gt (Vec3.mag2_pos_of_ne_zero hdg)
  have hmm : Vec3.mag2 (a.position - b.position) ≠ 0 :=
    ne_of_gt (Vec3.mag2_pos_of_ne_zero hdm)
  refine ⟨rfl, ?_, ?_, rfl, ?_, ?_⟩
  · simp only [Atom.find_gravity, Vec3.smul_def, Vec3.mag2_def, Vec3.sub_def] at *
    field_simp
    ring
  · intro hm
    refine ⟨Atom.G * a.mass * b.mass / Vec3.mag2 (b.position - a.position), ?_, rfl⟩
    apply div_pos
    · have h5 : (0 : ℚ) < Atom.G := by norm_num [Atom.G]
      calc (0 : ℚ) < Atom.G * (a.mass * b.mass) := mul_pos h5 hm
        _ = Atom.G * a.mass * b.mass := by ring
    · exact Vec3.mag2_pos_of_ne_zero hdg
  · simp only [Atom.find_magnetism, Vec3.smul_def, Vec3.mag2_def, Vec3.sub_def] at *
    have hpi : PI32 ≠ 0 := ne_of_gt PI32_pos
    field_simp
    ring
  · intro hq
    refine ⟨Atom.mu * a.charge * b.charge / 4 / PI32 / Vec3.mag2 (a.position - b.position),
      ?_, rfl⟩
    apply div_pos
    apply div_pos
    apply div_pos
    · have h55 : (0 : ℚ) < Atom.mu := by norm_num [Atom.mu]
      calc (0 : ℚ) < Atom.mu * (a.charge * b.charge) := mul_pos h55 hq
        _ = Atom.mu * a.charge * b.charge := by ring
    · norm_num
    · exact PI32_pos
    · exact Vec3.mag2_pos_of_ne_zero hdm

/-- Witness for C2 amended: the concrete atoms of the counterexample satisfy
the distinct-position hypothesis and the positive-mass-product hypothesis,
and the gravitational force on them is a positive multiple of the direction
from self toward other. -/
theorem find_forces_characterization_witness :
    atomA.position ≠ atomB.position
    ∧ 0 < atomA.mass * atomB.mass
    ∧ ∃ t : ℚ, 0 < t ∧ atomA.find_gravity atomB = t • (atomB.position - atomA.position) :=
  ⟨by decide, by norm_num [atomA, atomB, Atom.new],
    (find_forces_characterization atomA atomB (by decide)).2.2.1
      (by norm_num [atomA, atomB, Atom.new])⟩

/-!
Further shared helper lemmas.
-/

theorem Cloud.zle_trans (a b c : Atom) (h1 : Cloud.zle a b) (h2 : Cloud.zle b c) :
    Cloud.zle a c := by
  simp only [Cloud.zle, decide_eq_true_eq] at *
  exact le_trans h1 h2

theorem Cloud.zle_total (a b : Atom) : Cloud.zle a b || Cloud.zle b a := by
  simp only [Cloud.zle, Bool.or_eq_true, decide_eq_true_eq]
  exact le_total _ _

theorem Cloud.stepAtoms_eq_enumFrom_map (tmp : List Atom) (d : ℚ) :
    ∀ (a : Nat) (l : List Atom),
      Cloud.stepAtoms tmp d a l
        = (l.enumFrom a).map fun p => p.2.step (Cloud.netForce tmp p.1 p.2) d := by
  intro a l
  induction l generalizing a with
  | nil => rfl
  | cons x t ih => simp [Cloud.stepAtoms, List.enumFrom, ih]

/-- C6: `Cloud::step` equals the phased reference semantics: recentring fully
completes, then the net force of every atom is computed solely from the
post-recentring pre-integration snapshot, then every atom is integrated
(then the sort runs).  The force computation of an atom never observes any
within-step integrated state, its own or that of another atom, even though
the implementation integrates each atom inside the force-accumulation
loop. -/
theorem step_refines_snapshot_semantics (c : Cloud) (d : ℚ) :
    c.step d = c.stepRef d := by
  unfold Cloud.step Cloud.stepRef Cloud.stepUnsorted Cloud.stepAtomsRef
  simp only [Cloud.stepAtoms_eq_enumFrom_map, List.enum]

/-- C3 amended: `Cloud::new` yields one atom per sampled position, in draw
order — so exactly `count` atoms for `count` draws — each with zero
velocity, mass `1`, charge `1`, and (since `random_range(-1.0..=1.0)` keeps
every draw inside the cube) every position component in `[-1, 1]`.  No
initial depth sort is performed: the constructor stores the atoms in draw
order, and the first sort happens only inside the first `step`. -/
theorem cloud_new_characterization (ps : List Vec3)
    (h : ∀ p ∈ ps, -1 ≤ p.x ∧ p.x ≤ 1 ∧ -1 ≤ p.y ∧ p.y ≤ 1 ∧ -1 ≤ p.z ∧ p.z ≤ 1) :
    (Cloud.new ps).atoms.length = ps.length
    ∧ ∀ a ∈ (Cloud.new ps).atoms,
        a.velocity = 0 ∧ a.mass = 1 ∧ a.charge = 1
        ∧ -1 ≤ a.position.x ∧ a.position.x ≤ 1
        ∧ -1 ≤ a.position.y ∧ a.position.y ≤ 1
        ∧ -1 ≤ a.position.z ∧ a.position.z ≤ 1 := by
  constructor
  · simp [Cloud.new]
  · intro a ha
    simp only [Cloud.new, List.mem_map] at ha
    obtain ⟨p, hp, rfl⟩ := ha
    simpa [Atom.new] using h p hp

/-- Witness for C3 amended: two concrete in-range draws. -/
theorem cloud_new_characterization_witness :
    (∀ p ∈ [(⟨0, 0, 1⟩ : Vec3), ⟨0, 0, -1⟩],
        -1 ≤ p.x ∧ p.x ≤ 1 ∧ -1 ≤ p.y ∧ p.y ≤ 1 ∧ -1 ≤ p.z ∧ p.z ≤ 1)
    ∧ ((Cloud.new [(⟨0, 0, 1⟩ : Vec3), ⟨0, 0, -1⟩]).atoms.length
          = [(⟨0, 0, 1⟩ : Vec3), ⟨0, 0, -1⟩].length
        ∧ ∀ a ∈ (Cloud.new [(⟨0, 0, 1⟩ : Vec3), ⟨0, 0, -1⟩]).atoms,
            a.velocity = 0 ∧ a.mass = 1 ∧ a.charge = 1
            ∧ -1 ≤ a.position.x ∧ a.position.x ≤ 1
            ∧ -1 ≤ a.position.y ∧ a.position.y ≤ 1
            ∧ -1 ≤ a.position.z ∧ a.position.z ≤ 1) :=
  ⟨by decide, cloud_new_characterization [⟨0, 0, 1⟩, ⟨0, 0, -1⟩] (by decide)⟩

/-- Counterexample for C3 as stated: the draws `(0,0,1)` then `(0,0,0)` are
both inside the cube `[-1,1]³`, yet the constructed atom sequence is not
sorted by the z-component of position — `Cloud::new` performs no initial
depth sort. -/
theorem cloud_new_unsorted_counterexample :
    (∀ p ∈ [(⟨0, 0, 1⟩ : Vec3), ⟨0, 0, 0⟩],
        -1 ≤ p.x ∧ p.x ≤ 1 ∧ -1 ≤ p.y ∧ p.y ≤ 1 ∧ -1 ≤ p.z ∧ p.z ≤ 1)
    ∧ ¬ List.Pairwise (fun a b : Atom => a.position.z ≤ b.position.z)
        (Cloud.new [⟨0, 0, 1⟩, ⟨0, 0, 0⟩]).atoms := by
  constructor
  · decide
  · decide

/-- C1: after every completed `Cloud::step`, the atom sequence — and hence
the sequence returned by `positions` — is sorted non-decreasing in the
z-component of position for every adjacent pair, and the sort is stable:
for every depth value `v`, the atoms of depth `v` appear in the same order
as in the unsorted within-step sequence (which phase 1 and phase 2 derive
from the pre-step sequence position by position). -/
theorem step_sorted_and_stable (c : Cloud) (d : ℚ) :
    List.Pairwise (fun a b : Atom => a.position.z ≤ b.position.z) (c.step d).atoms
    ∧ List.Pairwise (fun p r : Vec3 => p.z ≤ r.z) ((c.step d).positions)
    ∧ ∀ v : ℚ,
        ((c.step d).atoms.filter fun a => a.position.z = v)
          = ((c.stepUnsorted d).atoms.filter fun a => a.position.z = v) := by
  have hsorted : ((c.step d).atoms).Pairwise fun a b => Cloud.zle a b := by
    exact List.sorted_mergeSort Cloud.zle_trans Cloud.zle_total ((c.stepUnsorted d).atoms)
  have hsorted' : ((c.step d).atoms).Pairwise fun a b : Atom => a.position.z ≤ b.position.z :=
    hsorted.imp fun h => by simpa [Cloud.zle] using h
  refine ⟨hsorted', ?_, ?_⟩
  · exact List.pairwise_map.mpr hsorted'
  · intro v
    set p : Atom → Bool := fun a => decide (a.position.z = v) with hp
    set l : List Atom := (c.stepUnsorted d).atoms with hl
    have hmem : ∀ a ∈ l.filter p, a.position.z = v := by
      intro a ha
      have := List.of_mem_filter ha
      simpa [hp] using this
    have hfpw : (l.filter p).Pairwise fun a b => Cloud.zle a b := by
      apply List.pairwise_of_forall_mem_list
      intro a ha b hb
      simp [Cloud.zle, hmem a ha, hmem b hb]
    have h1 : List.Sublist (l.filter p) (l.mergeSort Cloud.zle) :=
      List.sublist_mergeSort Cloud.zle_trans Cloud.zle_total hfpw (List.filter_sublist l)
    have h2 : List.Perm ((l.mergeSort Cloud.zle).filter p) (l.filter p) :=
      (List.mergeSort_perm l Cloud.zle).filter p
    have hself : (l.filter p).filter p = l.filter p := by
      apply List.filter_eq_self.mpr
      intro a ha
      exact (List.mem_filter.mp ha).2
    have h4 : List.Sublist (l.filter p) ((l.mergeSort Cloud.zle).filter p) := by
      have h5 := h1.filter p
      rwa [hself] at h5
    exact (h4.eq_of_length h2.length_eq.symm).symm

theorem Cloud.stepAtoms_length (tmp : List Atom) (d : ℚ) :
    ∀ (a : Nat) (l : List Atom), (Cloud.stepAtoms tmp d a l).length = l.length := by
  intro a l
  induction l generalizing a with
  | nil => rfl
  | cons x t ih => simp [Cloud.stepAtoms, ih]

/-- The depth sort permutes the atoms, so the sum of the positions is
unchanged by it. -/
theorem Cloud.positions_sum_sort (c : Cloud) :
    (c.sort.positions).sum = (c.positions).sum :=
  List.Perm.sum_eq ((List.mergeSort_perm c.atoms Cloud.zle).map _)

/-- The symmetric two-atom configuration of the spec: positions `(-1,0,0)`
and `(1,0,0)`, equal mass `m`, equal charge `q`, zero velocities. -/
def twoAtomCloud (m q : ℚ) : Cloud :=
  { atoms :=
      [ { position := ⟨-1, 0, 0⟩, velocity := 0, mass := m, charge := q },
        { position := ⟨1, 0, 0⟩, velocity := 0, mass := m, charge := q } ] }

/-- C7: for the symmetric two-atom configuration, one `step` leaves the
centroid at the origin for every `delta` (and every equal mass and charge):
the population stays of size two and the sum of the two positions is exactly
zero, because the recentring displacement vanishes and the pairwise forces
are equal and opposite. -/
theorem two_atom_centroid_at_origin (m q d : ℚ) :
    ((twoAtomCloud m q).step d).atoms.length = 2
    ∧ (((twoAtomCloud m q).step d).positions).sum = 0 := by
  have hcom : (twoAtomCloud m q).centerOfMass = 0 := by
    simp only [Cloud.centerOfMass, twoAtomCloud, List.foldl_cons, List.foldl_nil]
    ext <;> simp
  have hrec : (twoAtomCloud m q).recenter d = twoAtomCloud m q := by
    simp only [Cloud.recenter, hcom]
    congr 1
    have hid : ∀ a : Atom,
        ({ a with position := a.position + Cloud.RECENTER • d • (0 : Vec3) }) = a := by
      intro a
      ext <;> simp
    simp only [hid]
    exact List.map_id _
  constructor
  · show ((((twoAtomCloud m q).stepUnsorted d).atoms).mergeSort Cloud.zle).length = 2
    rw [List.length_mergeSort]
    show (Cloud.stepAtoms _ d 0 ((twoAtomCloud m q).recenter d).atoms).length = 2
    rw [Cloud.stepAtoms_length]
    rw [hrec]
    rfl
  · have hs : (((twoAtomCloud m q).step d).positions).sum
        = ((((twoAtomCloud m q).stepUnsorted d)).positions).sum :=
      Cloud.positions_sum_sort _
    rw [hs]
    simp only [Cloud.stepUnsorted, hrec]
    simp only [twoAtomCloud, Cloud.stepAtoms, Cloud.netForce, Cloud.positions,
      List.enum, List.enumFrom, List.foldl_cons, List.foldl_nil, List.map_cons,
      List.map_nil, List.sum_cons, List.sum_nil, Atom.step, Atom.find_gravity,
      Atom.find_magnetism, Atom.G, Atom.mu]
    norm_num
    ext <;> simp <;> ring

theorem FP.totalLe_trans (a b c : FP) (h1 : FP.totalLe a b) (h2 : FP.totalLe b c) :
    FP.totalLe a c := by
  rcases a with p | _ | _ | (_ | _) <;>
    rcases b with q | _ | _ | (_ | _) <;>
      rcases c with r | _ | _ | (_ | _) <;>
        simp_all [FP.totalLe, FP.rank] <;>
          linarith

theorem FP.totalLe_total (a b : FP) : FP.totalLe a b || FP.totalLe b a := by
  rcases a with p | _ | _ | (_ | _) <;>
    rcases b with q | _ | _ | (_ | _) <;>
      simp_all [FP.totalLe, FP.rank] <;>
        exact le_total _ _

/-- The `total_cmp` order puts the NaNs with clear sign bit at the top and
the NaNs with set sign bit at the bottom. -/
theorem FP.totalLe_nan_classes (p q : FP) (h : FP.totalLe p q) :
    (p.isPosNaN = true → q.isPosNaN = true)
    ∧ (q.isNegNaN = true → p.isNegNaN = true) := by
  rcases p with x | _ | _ | (_ | _) <;>
    rcases q with y | _ | _ | (_ | _) <;>
      simp_all [FP.totalLe, FP.rank, FP.isPosNaN, FP.isNegNaN]

/-- C10: the depth sort of `Cloud::step` compares z-components with the
`f32::total_cmp` total order, so it is a total deterministic (pure) function
even on non-finite depths: the result is a permutation of the input, it is
pairwise ordered by the `total_cmp` order, atoms with a positive-NaN depth
end up after every atom whose depth is not a positive NaN (and negative-NaN
depths before every other class), and the comparison itself is total. -/
theorem total_cmp_sort_handles_non_finite (l : List AtomF) :
    List.Perm (sortAtomsF l) l
    ∧ List.Pairwise (fun a b => zTotalLe a b = true) (sortAtomsF l)
    ∧ List.Pairwise (fun a b =>
        (a.position.z.isPosNaN = true → b.position.z.isPosNaN = true)
        ∧ (b.position.z.isNegNaN = true → a.position.z.isNegNaN = true)) (sortAtomsF l)
    ∧ (∀ p q : FP, FP.totalLe p q = true ∨ FP.totalLe q p = true) := by
  have htr : ∀ a b c : AtomF, zTotalLe a b → zTotalLe b c → zTotalLe a c :=
    fun a b c h1 h2 => FP.totalLe_trans _ _ _ h1 h2
  have hto : ∀ a b : AtomF, zTotalLe a b || zTotalLe b a :=
    fun a b => FP.totalLe_total _ _
  refine ⟨List.mergeSort_perm l _, List.sorted_mergeSort htr hto l, ?_, ?_⟩
  · exact (List.sorted_mergeSort htr hto l).imp fun h => FP.totalLe_nan_classes _ _ h
  · intro p q
    have h := FP.totalLe_total p q
    rcases Bool.or_eq_true_iff.mp h with h1 | h1
    · exact Or.inl h1
    · exact Or.inr h1

theorem FP.mul_finite_finite (p q : ℚ) :
    FP.mul (FP.finite p) (FP.finite q) = FP.finite (p * q) := rfl

theorem FP.mul_finite_inf (q : ℚ) :
    FP.mul (FP.finite q) FP.inf
      = if q = 0 then FP.nan false else if 0 < q then FP.inf else FP.negInf := rfl

theorem FP.div_finite_finite (p q : ℚ) :
    FP.div (FP.finite p) (FP.finite q)
      = if q = 0 then (if p = 0 then FP.nan false else if 0 < p then FP.inf else FP.negInf)
        else FP.finite (p / q) := rfl

/-- C9: for two atoms at identical (finite) positions with positive mass and
charge products, both force functions run to completion in the `FP` model
(they are total functions, no crash): the squared distance evaluates to the
floating zero, each division factor evaluates to `+∞`, and each returned
force vector has all components NaN — the product of the zero direction
components with the infinite factor — so the degeneracy propagates through
the floating-point pipeline instead of aborting. -/
theorem coincident_forces_degenerate (a b : AtomF) (x y z m₁ m₂ q₁ q₂ : ℚ)
    (hpos : a.position = b.position)
    (hx : a.position.x = FP.finite x) (hy : a.position.y = FP.finite y)
    (hz : a.position.z = FP.finite z)
    (hma : a.mass = FP.finite m₁) (hmb : b.mass = FP.finite m₂) (hm : 0 < m₁ * m₂)
    (hqa : a.charge = FP.finite q₁) (hqb : b.charge = FP.finite q₂) (hq : 0 < q₁ * q₂) :
    (b.position.sub a.position).mag2 = FP.finite 0
    ∧ a.gravFactor b = FP.inf
    ∧ a.find_gravity b = ⟨FP.nan false, FP.nan false, FP.nan false⟩
    ∧ a.magFactor b = FP.inf
    ∧ a.find_magnetism b = ⟨FP.nan false, FP.nan false, FP.nan false⟩ := by
  have hsub : b.position.sub a.position = ⟨FP.finite 0, FP.finite 0, FP.finite 0⟩ := by
    rw [← hpos]
    simp [VecF.sub, hx, hy, hz, FP.sub]
  have hsub' : a.position.sub b.position = ⟨FP.finite 0, FP.finite 0, FP.finite 0⟩ := by
    rw [← hpos]
    simp [VecF.sub, hx, hy, hz, FP.sub]
  have hmag : (VecF.mag2 ⟨FP.finite 0, FP.finite 0, FP.finite 0⟩) = FP.finite 0 := by
    simp [VecF.mag2, FP.mul, FP.add]
  have hm5 : (0 : ℚ) < 5 * m₁ * m₂ := by nlinarith
  have hgf : a.gravFactor b = FP.inf := by
    simp only [AtomF.gravFactor, AtomF.GF, Atom.G]
    rw [hsub, hmag, hma, hmb, FP.mul_finite_finite, FP.mul_finite_finite,
      FP.div_finite_finite, if_pos rfl, if_neg (by linarith : ¬ (5 : ℚ) * m₁ * m₂ = 0),
      if_pos hm5]
  have hq4 : (0 : ℚ) < 55 * q₁ * q₂ / 4 / PI32 := by
    apply div_pos
    apply div_pos
    · nlinarith
    · norm_num
    · exact PI32_pos
  have hmf : a.magFactor b = FP.inf := by
    simp only [AtomF.magFactor, AtomF.muF, AtomF.fourF, AtomF.piF, Atom.mu]
    rw [hsub', hmag, hqa, hqb, FP.mul_finite_finite, FP.mul_finite_finite,
      FP.div_finite_finite, if_neg (by norm_num : ¬ (4 : ℚ) = 0),
      FP.div_finite_finite, if_neg (ne_of_gt PI32_pos),
      FP.div_finite_finite, if_pos rfl, if_neg (ne_of_gt hq4), if_pos hq4]
  refine ⟨by rw [hsub, hmag], hgf, ?_, hmf, ?_⟩
  · rw [AtomF.find_gravity, hsub, hgf]
    simp [VecF.scale, FP.mul_finite_inf]
  · rw [AtomF.find_magnetism, hsub', hmf]
    simp [VecF.scale, FP.mul_finite_inf]

/-- Concrete coincident default atom for the C9 witness. -/
def atomF0 : AtomF :=
  { position := ⟨FP.finite 0, FP.finite 0, FP.finite 0⟩,
    velocity := ⟨FP.finite 0, FP.finite 0, FP.finite 0⟩,
    mass := FP.finite 1, charge := FP.finite 1 }

/-- Witness for C9: two coincident default atoms (mass 1, charge 1, both at
the finite origin). -/
theorem coincident_forces_degenerate_witness :
    (0 : ℚ) < 1 * 1
    ∧ (atomF0.position.sub atomF0.position).mag2 = FP.finite 0
    ∧ atomF0.gravFactor atomF0 = FP.inf
    ∧ atomF0.find_gravity atomF0 = ⟨FP.nan false, FP.nan false, FP.nan false⟩
    ∧ atomF0.magFactor atomF0 = FP.inf
    ∧ atomF0.find_magnetism atomF0 = ⟨FP.nan false, FP.nan false, FP.nan false⟩ :=
  ⟨by norm_num,
    coincident_forces_degenerate atomF0 atomF0 0 0 0 1 1 1 1
      rfl rfl rfl rfl rfl rfl (by norm_num) rfl rfl (by norm_num)⟩
